import Mathlib

/-!
Verification of the WGSL lowering pass (naga front/wgsl/lower/mod.rs).

This file shallowly embeds the parts of the lowering pass that the claims
concern: struct layout, local declarations (let, var), switch lowering,
array sizes, atomic helpers, binary splats, relational built-ins and
entry-point workgroup sizes.  Collaborating subsystems that live outside
the lowering module (the constant evaluator, the typifier, the layouter)
are passed in as explicit data, as the specification treats them as black
boxes with stated contracts.
-/

set_option maxRecDepth 4000

namespace Wgsl

/-! ## Scalars and types -/

/-- Scalar kinds of the IR (naga crate::ScalarKind). -/
inductive ScalarKind where
  | Sint | Uint | Float | Bool | AbstractInt | AbstractFloat
deriving DecidableEq, Repr

/-- A scalar type: kind plus width in bytes (naga crate::Scalar). -/
structure Scalar where
  kind : ScalarKind
  width : Nat
deriving DecidableEq, Repr

def Scalar.I32 : Scalar := ⟨ScalarKind.Sint, 4⟩
def Scalar.U32 : Scalar := ⟨ScalarKind.Uint, 4⟩
def Scalar.BOOL : Scalar := ⟨ScalarKind.Bool, 1⟩
def Scalar.ABSTRACT_INT : Scalar := ⟨ScalarKind.AbstractInt, 8⟩

/-- Vector sizes (naga crate::VectorSize). -/
inductive VectorSize where
  | Bi | Tri | Quad
deriving DecidableEq, Repr

/-- The fragment of naga crate::TypeInner that the verified claims
inspect.  All other inner variants are collapsed into `other`, matching
the catch-all arms of the source pattern matches. -/
inductive TypeInner where
  | scalar (s : Scalar)
  | vector (size : VectorSize) (s : Scalar)
  | atomic (s : Scalar)
  | pointer (base : Nat) (space : Nat)
  | other
deriving DecidableEq, Repr

/-- Scalar kind of a resolved type, as used by `scalar_kind()` in the
source: scalars, vectors and atomics expose their kind. -/
def TypeInner.scalar_kind : TypeInner → Option ScalarKind
  | TypeInner.scalar s => some s.kind
  | TypeInner.vector _ s => some s.kind
  | TypeInner.atomic s => some s.kind
  | _ => none

/-! ## Alignment and struct layout (r#struct, lines 3248-3324)

Modelled from the spec: naga `Alignment` (proc/layouter.rs, outside the
sources provided) is a power-of-two byte alignment; we store the exponent.
`round_up` rounds a byte offset up to the next multiple of the alignment,
and alignments are ordered by value. -/

structure Alignment where
  exp : Nat
deriving DecidableEq, Repr

/-- Byte value of an alignment. -/
def Alignment.value (a : Alignment) : Nat := 2 ^ a.exp

/-- Modelled from the spec: the unit alignment (Alignment::ONE). -/
def Alignment.ONE : Alignment := ⟨0⟩

/-- Modelled from the spec: maximum of two alignments, by value. -/
def Alignment.max (a b : Alignment) : Alignment :=
  if a.exp ≤ b.exp then b else a

/-- Modelled from the spec: round `n` up to a multiple of the alignment. -/
def Alignment.round_up (a : Alignment) (n : Nat) : Nat :=
  ((n + a.value - 1) / a.value) * a.value

/-- Modelled from the spec: Alignment::new accepts exactly the positive
powers of two. -/
def Alignment.new (n : Nat) : Option Alignment :=
  if 0 < n ∧ 2 ^ (Nat.log2 n) = n then some ⟨Nat.log2 n⟩ else none

theorem Alignment.value_pos (a : Alignment) : 0 < a.value :=
  Nat.pos_pow_of_pos _ (by decide)

theorem Alignment.round_up_dvd (a : Alignment) (n : Nat) :
    a.value ∣ a.round_up n :=
  dvd_mul_left a.value ((n + a.value - 1) / a.value)

theorem Alignment.le_round_up (a : Alignment) (n : Nat) : n ≤ a.round_up n := by
  unfold Alignment.round_up
  have hv : 0 < a.value := a.value_pos
  have hmod := Nat.mod_add_div (n + a.value - 1) a.value
  have hlt : (n + a.value - 1) % a.value < a.value := Nat.mod_lt _ hv
  have hmul : a.value * ((n + a.value - 1) / a.value) =
      ((n + a.value - 1) / a.value) * a.value := Nat.mul_comm _ _
  omega

theorem Alignment.le_max_left (a b : Alignment) :
    a.value ≤ (Alignment.max a b).value := by
  unfold Alignment.max Alignment.value
  split
  · exact Nat.pow_le_pow_right (by decide) (by assumption)
  · exact Nat.le_refl _

theorem Alignment.le_max_right (a b : Alignment) :
    b.value ≤ (Alignment.max a b).value := by
  unfold Alignment.max Alignment.value
  split
  · exact Nat.le_refl _
  · exact Nat.pow_le_pow_right (by decide) (by omega)

theorem Alignment.max_eq_or (a b : Alignment) :
    Alignment.max a b = a ∨ Alignment.max a b = b := by
  unfold Alignment.max
  split
  · exact Or.inr rfl
  · exact Or.inl rfl

/-! ## Errors

The error fragment used by the embedded functions.  Constant-evaluator
errors keep their distinguished `OverrideExpr` variant; all other
evaluator variants are represented by `OtherVariant` with a code, so that
propagation of every non-override variant can be stated. -/

inductive ConstantEvaluatorError where
  | OverrideExpr
  | OtherVariant (code : Nat)
deriving DecidableEq, Repr

inductive Error where
  | ConstantEvaluatorError (e : ConstantEvaluatorError)
  | ExpectedConstExprConcreteIntegerScalar
  | ExpectedPositiveArrayLength
  | ExpectedNonNegative
  | InvalidSwitchSelector
  | InvalidSwitchCase
  | SwitchCaseTypeMismatch (operand : Nat)
  | InitializationTypeMismatch
  | SizeAttributeTooLow (minSize : Nat)
  | AlignAttributeTooLow
  | NonPowerOfTwoAlignAttribute
  | OtherError (code : Nat)
deriving DecidableEq, Repr

/-! ## Struct lowering (r#struct)

Input data for one AST struct member.  The layouter results
(`min_size`, `min_alignment`) and the constant-evaluated attribute values
(`size_attr`, `align_attr`, from `const_u32`) are inputs here since the
layouter and evaluator are external collaborators. -/

structure AstStructMember where
  min_size : Nat
  min_alignment : Alignment
  size_attr : Option Nat
  align_attr : Option Nat
deriving DecidableEq, Repr

/-- The member size: the `@size` value when given (checked against the
layouter minimum) else the minimum (source lines 3266-3275). -/
def memberSize (m : AstStructMember) : Except Error Nat :=
  match m.size_attr with
  | some size =>
      if size < m.min_size then Except.error (Error.SizeAttributeTooLow m.min_size)
      else Except.ok size
  | none => Except.ok m.min_size

/-- The member alignment: the `@align` value when given (must be a power
of two and at least the layouter minimum) else the minimum (source lines
3277-3293). -/
def memberAlignment (m : AstStructMember) : Except Error Alignment :=
  match m.align_attr with
  | some align =>
      match Alignment.new align with
      | some alignment =>
          if alignment.value < m.min_alignment.value then
            Except.error Error.AlignAttributeTooLow
          else Except.ok alignment
      | none => Except.error Error.NonPowerOfTwoAlignAttribute
  | none => Except.ok m.min_alignment

/-- A lowered struct member: only the computed byte offset is relevant
here (crate::StructMember offset field). -/
structure StructMemberIR where
  offset : Nat
deriving DecidableEq, Repr

structure StructTypeIR where
  members : List StructMemberIR
  /-- Total size of the struct (the `span` field of TypeInner::Struct). -/
  size : Nat
deriving DecidableEq, Repr

/-- The member loop of `r#struct` (source lines 3254-3308): round the
running offset up to the member alignment, record the offset, track the
running maximum alignment and advance by the member size.  Error
propagation is written as explicit matches, mirroring the source `?`
operator. -/
def structMembersLoop :
    List AstStructMember → Nat → Alignment →
    Except Error (List StructMemberIR × Nat × Alignment)
  | [], offset, struct_alignment => Except.ok ([], offset, struct_alignment)
  | m :: rest, offset, struct_alignment =>
      match memberSize m with
      | Except.error e => Except.error e
      | Except.ok member_size =>
        match memberAlignment m with
        | Except.error e => Except.error e
        | Except.ok member_alignment =>
          let offset2 := member_alignment.round_up offset
          match structMembersLoop rest (offset2 + member_size)
              (struct_alignment.max member_alignment) with
          | Except.error e => Except.error e
          | Except.ok (members, final_offset, final_alignment) =>
              Except.ok (⟨offset2⟩ :: members, final_offset, final_alignment)

/-- Lowering of a struct declaration (`r#struct`, source lines
3248-3324): run the member loop from offset 0 and alignment ONE, then the
total size is the final offset rounded up to the struct alignment. -/
def lowerStruct (ms : List AstStructMember) : Except Error StructTypeIR :=
  match structMembersLoop ms 0 Alignment.ONE with
  | Except.error e => Except.error e
  | Except.ok (members, offset, struct_alignment) =>
      Except.ok { members := members, size := struct_alignment.round_up offset }

/-- All member alignments of a struct, in source order. -/
def memberAligns : List AstStructMember → Except Error (List Alignment)
  | [] => Except.ok []
  | m :: rest =>
      match memberAlignment m with
      | Except.error e => Except.error e
      | Except.ok a =>
        match memberAligns rest with
        | Except.error e => Except.error e
        | Except.ok rest2 => Except.ok (a :: rest2)

/-- All member sizes of a struct, in source order. -/
def memberSizes : List AstStructMember → Except Error (List Nat)
  | [] => Except.ok []
  | m :: rest =>
      match memberSize m with
      | Except.error e => Except.error e
      | Except.ok s =>
        match memberSizes rest with
        | Except.error e => Except.error e
        | Except.ok rest2 => Except.ok (s :: rest2)

theorem Alignment.max_one_left (a : Alignment) : Alignment.ONE.max a = a := by
  unfold Alignment.max Alignment.ONE
  simp

theorem foldl_max_seed_le (algs : List Alignment) :
    ∀ al : Alignment, al.value ≤ (algs.foldl Alignment.max al).value := by
  induction algs with
  | nil => intro al; exact Nat.le_refl _
  | cons a rest ih =>
      intro al
      exact Nat.le_trans (Alignment.le_max_left al a) (ih (al.max a))

theorem foldl_max_mem_le (algs : List Alignment) :
    ∀ (al a : Alignment), a ∈ algs →
      a.value ≤ (algs.foldl Alignment.max al).value := by
  induction algs with
  | nil => intro _ _ h; cases h
  | cons b rest ih =>
      intro al a h
      rcases List.mem_cons.mp h with h | h
      · subst h
        exact Nat.le_trans (Alignment.le_max_right al a) (foldl_max_seed_le rest _)
      · exact ih _ a h

theorem foldl_max_result_mem (algs : List Alignment) :
    ∀ al : Alignment, algs.foldl Alignment.max al = al ∨
      algs.foldl Alignment.max al ∈ algs := by
  induction algs with
  | nil => intro al; exact Or.inl rfl
  | cons a rest ih =>
      intro al
      rcases ih (al.max a) with h | h
      · rw [List.foldl_cons, h]
        rcases Alignment.max_eq_or al a with h2 | h2
        · exact Or.inl h2
        · refine Or.inr ?_
          rw [h2]
          exact List.mem_cons_self a rest
      · exact Or.inr (List.mem_cons_of_mem a h)

theorem foldl_max_one_mem (algs : List Alignment) (hne : algs ≠ []) :
    algs.foldl Alignment.max Alignment.ONE ∈ algs := by
  cases algs with
  | nil => exact absurd rfl hne
  | cons a rest =>
      rw [List.foldl_cons, Alignment.max_one_left]
      rcases foldl_max_result_mem rest a with h | h
      · rw [h]
        exact List.mem_cons_self a rest
      · exact List.mem_cons_of_mem a h

/-- Invariant of the member loop: the alignment and size computations all
succeed, every produced offset is a multiple of the corresponding member
alignment, the offsets are non-decreasing starting from the incoming
offset, the final alignment is the running maximum, and the final offset
is the last offset plus the last size. -/
theorem structMembersLoop_spec (ms : List AstStructMember) :
    ∀ (off : Nat) (al : Alignment) (mem : List StructMemberIR)
      (fo : Nat) (fa : Alignment),
    structMembersLoop ms off al = Except.ok (mem, fo, fa) →
    ∃ algs szs,
      memberAligns ms = Except.ok algs ∧ memberSizes ms = Except.ok szs ∧
      szs.length = mem.length ∧
      List.Forall₂ (fun (a : Alignment) (m : StructMemberIR) => a.value ∣ m.offset)
        algs mem ∧
      List.Chain' (· ≤ ·) (off :: mem.map StructMemberIR.offset) ∧
      fa = algs.foldl Alignment.max al ∧
      (mem = [] → fo = off) ∧
      (∀ lm ls, mem.getLast? = some lm → szs.getLast? = some ls →
        fo = lm.offset + ls) := by
  induction ms with
  | nil =>
      intro off al mem fo fa h
      simp only [structMembersLoop, Except.ok.injEq, Prod.mk.injEq] at h
      obtain ⟨h1, h2, h3⟩ := h
      subst h1
      subst h2
      subst h3
      refine ⟨[], [], rfl, rfl, rfl, List.Forall₂.nil, ?_, rfl, fun _ => rfl, ?_⟩
      · simp
      · intro lm ls hlm hls
        simp at hlm
  | cons m rest ih =>
      intro off al mem fo fa h
      cases hs : memberSize m with
      | error e => simp only [structMembersLoop, hs] at h; exact Except.noConfusion h
      | ok member_size =>
      cases ha : memberAlignment m with
      | error e => simp only [structMembersLoop, hs, ha] at h; exact Except.noConfusion h
      | ok member_alignment =>
      cases hrec : structMembersLoop rest
          (member_alignment.round_up off + member_size)
          (al.max member_alignment) with
      | error e => simp only [structMembersLoop, hs, ha, hrec] at h; exact Except.noConfusion h
      | ok trip =>
      obtain ⟨members, final_offset, final_alignment⟩ := trip
      simp only [structMembersLoop, hs, ha, hrec, Except.ok.injEq,
        Prod.mk.injEq] at h
      obtain ⟨h1, h2, h3⟩ := h
      subst h1
      subst h2
      subst h3
      obtain ⟨algs, szs, hA, hS, hlen, hF, hC, hfold, hnil, hlast⟩ :=
        ih (member_alignment.round_up off + member_size)
          (al.max member_alignment) members final_offset final_alignment hrec
      refine ⟨member_alignment :: algs, member_size :: szs, ?_, ?_, ?_, ?_, ?_, ?_, ?_, ?_⟩
      · simp only [memberAligns, ha, hA]
      · simp only [memberSizes, hs, hS]
      · simp [hlen]
      · exact List.Forall₂.cons (Alignment.round_up_dvd member_alignment off) hF
      · simp only [List.map_cons]
        refine List.chain'_cons.mpr ⟨Alignment.le_round_up member_alignment off, ?_⟩
        cases hmembers : members with
        | nil => simp
        | cons m0 mrest =>
            rw [hmembers] at hC
            simp only [List.map_cons] at hC ⊢
            have hstep := (List.chain'_cons.mp hC).1
            have htail := (List.chain'_cons.mp hC).2
            exact List.chain'_cons.mpr
              ⟨Nat.le_trans (Nat.le_add_right _ _) hstep, htail⟩
      · rw [hfold]
        simp
      · intro hmemnil
        cases hmemnil
      · intro lm ls hlm hls
        cases hmembers : members with
        | nil =>
            subst hmembers
            simp only [List.getLast?_singleton] at hlm
            have hszs : szs = [] := by
              cases szs with
              | nil => rfl
              | cons a b => simp at hlen
            subst hszs
            simp only [List.getLast?_singleton] at hls
            cases hlm
            cases hls
            exact hnil rfl
        | cons m0 mrest =>
            subst hmembers
            rw [List.getLast?_cons_cons] at hlm
            have hszsne : szs ≠ [] := by
              intro hsznil
              rw [hsznil] at hlen
              simp at hlen
            obtain ⟨s0, srest, rfl⟩ := List.exists_cons_of_ne_nil hszsne
            rw [List.getLast?_cons_cons] at hls
            exact hlast lm ls hlm hls

theorem memberAligns_length (ms : List AstStructMember) :
    ∀ algs, memberAligns ms = Except.ok algs → algs.length = ms.length := by
  induction ms with
  | nil =>
      intro algs h
      simp only [memberAligns, Except.ok.injEq] at h
      subst h
      rfl
  | cons m rest ih =>
      intro algs h
      cases ha : memberAlignment m with
      | error e => simp only [memberAligns, ha] at h; exact Except.noConfusion h
      | ok a =>
      cases hr : memberAligns rest with
      | error e => simp only [memberAligns, ha, hr] at h; exact Except.noConfusion h
      | ok rest2 =>
      simp only [memberAligns, ha, hr, Except.ok.injEq] at h
      subst h
      simp [ih rest2 hr]

/-- C2: for every struct type produced by lowering a struct declaration,
each member byte offset is a multiple of that member alignment (the
`@align` value when given, else the layouter minimum), the offsets are
non-decreasing in source member order, and the total size equals the last
member offset plus the last member size (the `@size` value when given,
else the layouter minimum) rounded up to the struct alignment, which is
the maximum of all member alignments. -/
theorem struct_layout_invariants (ms : List AstStructMember) (st : StructTypeIR)
    (hne : ms ≠ []) (h : lowerStruct ms = Except.ok st) :
    ∃ algs szs,
      memberAligns ms = Except.ok algs ∧ memberSizes ms = Except.ok szs ∧
      List.Forall₂ (fun (a : Alignment) (m : StructMemberIR) => a.value ∣ m.offset)
        algs st.members ∧
      List.Chain' (· ≤ ·) (st.members.map StructMemberIR.offset) ∧
      (∀ a ∈ algs, a.value ≤ (algs.foldl Alignment.max Alignment.ONE).value) ∧
      algs.foldl Alignment.max Alignment.ONE ∈ algs ∧
      ∃ lm ls, st.members.getLast? = some lm ∧ szs.getLast? = some ls ∧
        st.size = (algs.foldl Alignment.max Alignment.ONE).round_up
          (lm.offset + ls) := by
  cases hloop : structMembersLoop ms 0 Alignment.ONE with
  | error e =>
      simp only [lowerStruct, hloop] at h
      exact Except.noConfusion h
  | ok trip =>
      obtain ⟨members, offset, struct_alignment⟩ := trip
      simp only [lowerStruct, hloop, Except.ok.injEq] at h
      subst h
      obtain ⟨algs, szs, hA, hS, hlen, hF, hC, hfold, hnil, hlast⟩ :=
        structMembersLoop_spec ms 0 Alignment.ONE members offset
          struct_alignment hloop
      have halgslen : algs.length = ms.length := memberAligns_length ms algs hA
      have hmemlen : members.length = ms.length := by
        rw [← List.Forall₂.length_eq hF, halgslen]
      have hmemne : members ≠ [] := by
        intro hx
        rw [hx] at hmemlen
        exact hne (List.length_eq_zero.mp hmemlen.symm)
      have halgsne : algs ≠ [] := by
        intro hx
        rw [hx] at halgslen
        exact hne (List.length_eq_zero.mp halgslen.symm)
      have hszsne : szs ≠ [] := by
        intro hx
        rw [hx] at hlen
        exact hmemne (List.length_eq_zero.mp hlen.symm)
      obtain ⟨lm, hlm⟩ := Option.isSome_iff_exists.mp
        (Option.ne_none_iff_isSome.mp
          (mt List.getLast?_eq_none_iff.mp hmemne))
      obtain ⟨ls, hls⟩ := Option.isSome_iff_exists.mp
        (Option.ne_none_iff_isSome.mp
          (mt List.getLast?_eq_none_iff.mp hszsne))
      refine ⟨algs, szs, hA, hS, hF, hC.tail, ?_, foldl_max_one_mem algs halgsne,
        lm, ls, hlm, hls, ?_⟩
      · intro a ha
        exact foldl_max_mem_le algs Alignment.ONE a ha
      · have hofs : offset = lm.offset + ls := hlast lm ls hlm hls
        have hgoal : struct_alignment.round_up offset =
            (List.foldl Alignment.max Alignment.ONE algs).round_up
              (lm.offset + ls) := by
          rw [hofs, hfold]
        exact hgoal

/-- Example struct: member a has layouter size 4 and alignment 4, member
b has layouter size 16 and alignment 16 (as for a vec4 of f32). -/
def exStructMembers : List AstStructMember :=
  [⟨4, ⟨2⟩, none, none⟩, ⟨16, ⟨4⟩, none, none⟩]

theorem struct_layout_invariants_witness :
    lowerStruct exStructMembers = Except.ok ⟨[⟨0⟩, ⟨16⟩], 32⟩ ∧
    (∃ algs szs,
      memberAligns exStructMembers = Except.ok algs ∧
      memberSizes exStructMembers = Except.ok szs ∧
      List.Forall₂ (fun (a : Alignment) (m : StructMemberIR) => a.value ∣ m.offset)
        algs (StructTypeIR.mk [⟨0⟩, ⟨16⟩] 32).members ∧
      List.Chain' (· ≤ ·)
        ((StructTypeIR.mk [⟨0⟩, ⟨16⟩] 32).members.map StructMemberIR.offset) ∧
      (∀ a ∈ algs, a.value ≤ (algs.foldl Alignment.max Alignment.ONE).value) ∧
      algs.foldl Alignment.max Alignment.ONE ∈ algs ∧
      ∃ lm ls, (StructTypeIR.mk [⟨0⟩, ⟨16⟩] 32).members.getLast? = some lm ∧
        szs.getLast? = some ls ∧
        (StructTypeIR.mk [⟨0⟩, ⟨16⟩] 32).size =
          (algs.foldl Alignment.max Alignment.ONE).round_up
            (lm.offset + ls)) :=
  ⟨rfl,
   struct_layout_invariants exStructMembers ⟨[⟨0⟩, ⟨16⟩], 32⟩
     (by decide) rfl⟩

/-! ## Function bodies: expression arenas, kinds, emitter windows

State for lowering inside a function body.  The expression arena holds
(expression, span) pairs addressed by dense indices; the expression-kind
tracker is the parallel `kinds` list.  The expression kind recorded on
append is chosen by the constant evaluator in the source; it is an
argument here, with each call site passing the kind the evaluator
assigns (literals are const-expressions, local-variable references and
atomic results are runtime). -/

inductive ExpressionKind where
  | Const | Override | Runtime
deriving DecidableEq, Repr

inductive Literal where
  | i32 (v : Int)
  | u32 (v : Nat)
  | bool (b : Bool)
  | abstractInt (v : Int)
  | otherLit (code : Nat)
deriving DecidableEq, Repr

inductive RelationalFunction where
  | All | Any | IsNan | IsInf
deriving DecidableEq, Repr

inductive AtomicFunction where
  | Add | Subtract | And | ExclusiveOr | InclusiveOr | Min | Max
  | Exchange (compare : Option Nat)
deriving DecidableEq, Repr

inductive BinaryOperator where
  | Add | Subtract | Multiply | Divide | Modulo
  | Equal | NotEqual | Less | LessEqual | Greater | GreaterEqual
  | And | ExclusiveOr | InclusiveOr | LogicalAnd | LogicalOr
  | ShiftLeft | ShiftRight
deriving DecidableEq, Repr

/-- The fragment of naga crate::Expression relevant to the claims. -/
inductive Expression where
  | literal (l : Literal)
  | override (h : Nat)
  | localVariable (h : Nat)
  | splat (size : VectorSize) (value : Nat)
  | relational (f : RelationalFunction) (argument : Nat)
  | atomicResult (ty : Nat) (comparison : Bool)
  | binary (op : BinaryOperator) (left : Nat) (right : Nat)
  | otherExpr (code : Nat)
deriving DecidableEq, Repr

inductive SwitchValue where
  | I32 (v : Int)
  | U32 (v : Nat)
  | Default
deriving DecidableEq, Repr

structure SwitchCaseIR where
  value : SwitchValue
  fall_through : Bool
deriving DecidableEq, Repr

/-- The fragment of naga crate::Statement relevant to the claims.  An
`emit` covers the arena index range [first, stop). -/
inductive Statement where
  | emit (first stop : Nat)
  | store (pointer value : Nat)
  | atomic (pointer : Nat) (f : AtomicFunction) (value : Nat) (result : Option Nat)
  | switch (selector : Nat) (cases : List SwitchCaseIR)
  | otherStmt (code : Nat)
deriving DecidableEq, Repr

/-- Typed tags an expression handle as a WGSL reference or a plain value. -/
inductive Typed (T : Type) where
  | Reference (v : T)
  | Plain (v : T)
deriving DecidableEq, Repr

/-- Declared tags a local binding as const-visible or runtime-only. -/
inductive Declared (T : Type) where
  | Const (v : T)
  | Runtime (v : T)
deriving DecidableEq, Repr

structure LocalVariable where
  name : Option String
  ty : Nat
  init : Option Nat
deriving DecidableEq, Repr

/-- The per-function state threaded by the statement context: the
function expression arena (with spans), the local expression-kind
tracker, the local-variable arena, the local symbol table and the
named-expressions map (both association lists, most recent first). -/
structure FunctionCtx where
  expressions : List (Expression × Nat)
  kinds : List ExpressionKind
  local_variables : List LocalVariable
  local_table : List (Nat × Declared (Typed Nat))
  named_expressions : List (Nat × String)
deriving DecidableEq, Repr

/-- Modelled from the spec: Emitter::finish yields a contiguous Emit
statement for the expressions appended since start, or nothing when the
window is empty. -/
def emitterFinish (start : Nat) (exprs : List (Expression × Nat)) : List Statement :=
  if start < exprs.length then [Statement.emit start exprs.length] else []

/-- Append an expression to the function arena and record its kind in
the tracker (the source routes this through the constant evaluator,
which chooses the recorded kind; the caller passes it here). -/
def appendExpression (s : FunctionCtx) (e : Expression) (span : Nat)
    (k : ExpressionKind) : FunctionCtx × Nat :=
  ({ s with expressions := s.expressions ++ [(e, span)],
            kinds := s.kinds ++ [k] },
   s.expressions.length)

/-- interrupt_emitter (source lines 766-788): close the current emit
window into the block, append the expression, restart the window after
it.  Returns the new state, block, window start and handle. -/
def interrupt_emitter (s : FunctionCtx) (block : List Statement) (start : Nat)
    (e : Expression) (span : Nat) (k : ExpressionKind) :
    FunctionCtx × List Statement × Nat × Nat :=
  let block := block ++ emitterFinish start s.expressions
  let r := appendExpression s e span k
  (r.1, block, r.1.expressions.length, r.2)

/-- Lowering of a literal expression (the Literal arm of
expression_for_reference): materialised via interrupt_emitter, outside
any emit window; the constant evaluator registers a literal as a
const-expression. -/
def lowerLiteral (s : FunctionCtx) (block : List Statement) (start : Nat)
    (l : Literal) (span : Nat) : FunctionCtx × List Statement × Nat × Nat :=
  interrupt_emitter s block start (Expression.literal l) span ExpressionKind.Const

/-- Modelled from the spec: force_non_const marks an expression handle
as non-const (Runtime) in the expression-kind tracker; a let-referring
expression is never a const-expression. -/
def force_non_const (kinds : List ExpressionKind) (h : Nat) : List ExpressionKind :=
  kinds.set h ExpressionKind.Runtime

/-- Modelled from the spec: the tracker query used by the var hoisting
rule: the handle is tracked Const or Override. -/
def is_const_or_override (kinds : List ExpressionKind) (h : Nat) : Bool :=
  match kinds[h]? with
  | some ExpressionKind.Const => true
  | some ExpressionKind.Override => true
  | _ => false

/-! ## The let statement (source lines 1489-1530)

The initialiser here is a literal, the interesting boundary case: the
claim is that the let-bound handle is forced non-const even though a
literal initialiser is itself a const-expression.  `tyOk` is the outcome
of the optional explicit-type structural-equality check (true when no
explicit type is given or the types agree). -/

def lowerLetLit (s : FunctionCtx) (block : List Statement)
    (localHandle : Nat) (name : String) (l : Literal) (span : Nat)
    (tyOk : Bool) : Except Error (FunctionCtx × List Statement) :=
  let start := s.expressions.length
  let r := lowerLiteral s block start l span
  let s := r.1
  let block := r.2.1
  let start := r.2.2.1
  let value := r.2.2.2
  let s := { s with kinds := force_non_const s.kinds value }
  if tyOk then
    let block := block ++ emitterFinish start s.expressions
    let s := { s with
      local_table := (localHandle, Declared.Runtime (Typed.Plain value)) :: s.local_table,
      named_expressions := (value, name) :: s.named_expressions }
    Except.ok (s, block)
  else
    Except.error Error.InitializationTypeMismatch

/-! ## The var statement (source lines 1531-1596)

The initialiser (if any) has already been lowered by type_and_init; the
parameters are its handle, the resolved type, and the emit-window start
recorded when the statement began. -/

def lowerVar (s : FunctionCtx) (block : List Statement) (start : Nat)
    (localHandle : Nat) (name : String) (ty : Nat)
    (initializer : Option Nat) (is_inside_loop : Bool) :
    FunctionCtx × List Statement :=
  let ci :=
    match initializer with
    | some init =>
        if is_inside_loop || !(is_const_or_override s.kinds init) then
          (none, some init)
        else (some init, none)
    | none => (none, none)
  let const_initializer := ci.1
  let initializer := ci.2
  let var := s.local_variables.length
  let s := { s with local_variables :=
    s.local_variables ++ [⟨some name, ty, const_initializer⟩] }
  let r := interrupt_emitter s block start (Expression.localVariable var) 0
    ExpressionKind.Runtime
  let s := r.1
  let block := r.2.1
  let start := r.2.2.1
  let handle := r.2.2.2
  let block := block ++ emitterFinish start s.expressions
  let s := { s with local_table :=
    (localHandle, Declared.Runtime (Typed.Reference handle)) :: s.local_table }
  match initializer with
  | some init => (s, block ++ [Statement.store handle init])
  | none => (s, block)

theorem set_append_length {α : Type} (l : List α) (a b : α) :
    (l ++ [a]).set l.length b = l ++ [b] := by
  induction l with
  | nil => rfl
  | cons x xs ih => simp [List.set_cons_succ, ih]

theorem getElem?_append_singleton {α : Type} (l : List α) (a : α) :
    (l ++ [a])[l.length]? = some a := by
  induction l with
  | nil => rfl
  | cons x xs ih => simp [ih]

/-- Every statement produced by closing an emit window is an Emit. -/
theorem emitterFinish_only_emits (start : Nat) (exprs : List (Expression × Nat))
    (st : Statement) (h : st ∈ emitterFinish start exprs) :
    ∃ a b, st = Statement.emit a b := by
  unfold emitterFinish at h
  split at h
  · simp at h
    exact ⟨start, exprs.length, h⟩
  · simp at h

/-- C1: lowering a let statement forces the resulting expression handle
non-const in the local expression-kind tracker even when the initialiser
is a literal (itself registered const by expression lowering), records
the binding in the local table as Declared::Runtime(Typed::Plain(handle))
and in named_expressions, and pushes no statement for the let itself
(here the emit window is empty, so not even an Emit is pushed). -/
theorem let_binding_forced_non_const (s : FunctionCtx) (block : List Statement)
    (localHandle : Nat) (name : String) (l : Literal) (span : Nat)
    (hwf : s.kinds.length = s.expressions.length) :
    ∃ s2 block2,
      lowerLetLit s block localHandle name l span true = Except.ok (s2, block2) ∧
      (lowerLiteral s block s.expressions.length l span).1.kinds[s.expressions.length]? =
        some ExpressionKind.Const ∧
      s2.kinds[s.expressions.length]? = some ExpressionKind.Runtime ∧
      s2.local_table.head? =
        some (localHandle, Declared.Runtime (Typed.Plain s.expressions.length)) ∧
      s2.named_expressions.head? = some (s.expressions.length, name) ∧
      block2 = block := by
  refine ⟨_, _, rfl, ?_, ?_, ?_, ?_, ?_⟩
  · simp only [lowerLiteral, interrupt_emitter, appendExpression]
    rw [← hwf]
    exact getElem?_append_singleton s.kinds ExpressionKind.Const
  · simp only [lowerLetLit, lowerLiteral, interrupt_emitter, appendExpression,
      force_non_const, if_pos]
    rw [← hwf, set_append_length]
    exact getElem?_append_singleton s.kinds ExpressionKind.Runtime
  · simp only [lowerLetLit, lowerLiteral, interrupt_emitter, appendExpression,
      force_non_const, if_pos]
    rfl
  · simp only [lowerLetLit, lowerLiteral, interrupt_emitter, appendExpression,
      force_non_const, if_pos]
    rfl
  · simp only [lowerLetLit, lowerLiteral, interrupt_emitter, appendExpression,
      force_non_const, emitterFinish, if_pos]
    have h1 : ¬ s.expressions.length < s.expressions.length := Nat.lt_irrefl _
    have h2 : ¬ (s.expressions ++ [(Expression.literal l, span)]).length <
        (s.expressions ++ [(Expression.literal l, span)]).length := Nat.lt_irrefl _
    simp [h1, h2]

theorem let_binding_forced_non_const_witness :
    (FunctionCtx.mk [] [] [] [] []).kinds.length =
      (FunctionCtx.mk [] [] [] [] []).expressions.length ∧
    ∃ s2 block2,
      lowerLetLit (FunctionCtx.mk [] [] [] [] []) [] 3 "x" (Literal.i32 1) 7 true =
        Except.ok (s2, block2) ∧
      (lowerLiteral (FunctionCtx.mk [] [] [] [] []) [] 0 (Literal.i32 1) 7).1.kinds[(0 : Nat)]? =
        some ExpressionKind.Const ∧
      s2.kinds[(0 : Nat)]? = some ExpressionKind.Runtime ∧
      s2.local_table.head? = some (3, Declared.Runtime (Typed.Plain 0)) ∧
      s2.named_expressions.head? = some (0, "x") ∧
      block2 = [] :=
  ⟨rfl, let_binding_forced_non_const (FunctionCtx.mk [] [] [] [] []) [] 3 "x"
    (Literal.i32 1) 7 rfl⟩

/-- C3: for a local var statement with an initialiser, the initialiser
is hoisted into the LocalVariable init field (and no Store is emitted)
exactly when the statement is not inside a loop and the tracker records
the initialiser as const-or-override; otherwise init is None and a Store
of the initialiser to the variable reference expression is pushed. -/
theorem var_init_hoisting (s : FunctionCtx) (block : List Statement) (start : Nat)
    (localHandle : Nat) (name : String) (ty : Nat) (init : Nat)
    (is_inside_loop : Bool) :
    (is_inside_loop = false → is_const_or_override s.kinds init = true →
      (lowerVar s block start localHandle name ty (some init) is_inside_loop).1.local_variables.getLast?
          = some ⟨some name, ty, some init⟩ ∧
      (lowerVar s block start localHandle name ty (some init) is_inside_loop).2
          = block ++ emitterFinish start s.expressions ∧
      (∀ p v, Statement.store p v ∈
          (lowerVar s block start localHandle name ty (some init) is_inside_loop).2 →
        Statement.store p v ∈ block)) ∧
    (is_inside_loop = true ∨ is_const_or_override s.kinds init = false →
      (lowerVar s block start localHandle name ty (some init) is_inside_loop).1.local_variables.getLast?
          = some ⟨some name, ty, none⟩ ∧
      (lowerVar s block start localHandle name ty (some init) is_inside_loop).2
          = block ++ emitterFinish start s.expressions ++
            [Statement.store s.expressions.length init]) := by
  have hwin : emitterFinish (s.expressions ++ [(Expression.localVariable
      s.local_variables.length, 0)]).length
      (s.expressions ++ [(Expression.localVariable s.local_variables.length, 0)]) = [] := by
    unfold emitterFinish
    simp
  constructor
  · intro hloop hconst
    subst hloop
    have hblk : (lowerVar s block start localHandle name ty (some init) false).2
        = block ++ emitterFinish start s.expressions := by
      simp only [lowerVar, hconst, Bool.not_true, Bool.or_false, interrupt_emitter,
        appendExpression, hwin]
      simp
    refine ⟨?_, hblk, ?_⟩
    · simp only [lowerVar, hconst, Bool.not_true, Bool.or_false, interrupt_emitter,
        appendExpression, hwin]
      exact List.getLast?_concat _
    · intro p v hmem
      rw [hblk] at hmem
      rcases List.mem_append.mp hmem with hmem2 | hmem2
      · exact hmem2
      · obtain ⟨a, b, hab⟩ := emitterFinish_only_emits start s.expressions _ hmem2
        exact absurd hab (by simp)
  · intro hcase
    have hcond : (is_inside_loop || !(is_const_or_override s.kinds init)) = true := by
      rcases hcase with h | h
      · simp [h]
      · simp [h]
    simp only [lowerVar, hcond, interrupt_emitter, appendExpression, hwin]
    refine ⟨List.getLast?_concat _, by simp⟩

theorem var_init_hoisting_witness :
    (false = false) ∧
    is_const_or_override [ExpressionKind.Const] 0 = true ∧
    ((lowerVar (FunctionCtx.mk [(Expression.literal (Literal.i32 1), 0)]
        [ExpressionKind.Const] [] [] []) [] 1 5 "x" 9 (some 0) false).1.local_variables.getLast?
      = some ⟨some "x", 9, some 0⟩ ∧
     (lowerVar (FunctionCtx.mk [(Expression.literal (Literal.i32 1), 0)]
        [ExpressionKind.Const] [] [] []) [] 1 5 "x" 9 (some 0) false).2
      = [] ++ emitterFinish 1 [(Expression.literal (Literal.i32 1), 0)] ∧
     (∀ p v, Statement.store p v ∈
        (lowerVar (FunctionCtx.mk [(Expression.literal (Literal.i32 1), 0)]
          [ExpressionKind.Const] [] [] []) [] 1 5 "x" 9 (some 0) false).2 →
       Statement.store p v ∈ ([] : List Statement))) :=
  ⟨rfl, by decide,
   (var_init_hoisting (FunctionCtx.mk [(Expression.literal (Literal.i32 1), 0)]
      [ExpressionKind.Const] [] [] []) [] 1 5 "x" 9 0 false).1 rfl (by decide)⟩

/-! ## atomic_helper (source lines 2999-3051)

The pointer and value arguments have already been lowered; the resolved
inner type of the value and its registered type handle are the typifier
outputs.  Returns (state, block, emit-window start, result). -/

/-- The value type is a 64-bit scalar (matches Scalar { width: 8, .. }). -/
def is64BitScalar (t : TypeInner) : Bool :=
  match t with
  | TypeInner.scalar sc => sc.width == 8
  | _ => false

theorem is64BitScalar_iff (t : TypeInner) :
    is64BitScalar t = true ↔ ∃ sc, t = TypeInner.scalar sc ∧ sc.width = 8 := by
  cases t <;> simp [is64BitScalar]

/-- The atomic function is Min or Max. -/
def isMinMax (f : AtomicFunction) : Bool :=
  match f with
  | AtomicFunction.Min => true
  | AtomicFunction.Max => true
  | _ => false

theorem isMinMax_iff (f : AtomicFunction) :
    isMinMax f = true ↔ f = AtomicFunction.Min ∨ f = AtomicFunction.Max := by
  cases f <;> simp [isMinMax]

def atomic_helper (s : FunctionCtx) (block : List Statement) (start : Nat)
    (span : Nat) (f : AtomicFunction) (pointer value : Nat)
    (value_inner : TypeInner) (registeredTy : Nat) (is_statement : Bool) :
    FunctionCtx × List Statement × Nat × Option Nat :=
  let is_64_bit_min_max := isMinMax f && is64BitScalar value_inner
  if is_64_bit_min_max && is_statement then
    let block2 := block ++ emitterFinish start s.expressions
    let start2 := s.expressions.length
    (s, block2 ++ [Statement.atomic pointer f value none], start2, none)
  else
    let r := interrupt_emitter s block start
      (Expression.atomicResult registeredTy false) span ExpressionKind.Runtime
    (r.1, r.2.1 ++ [Statement.atomic pointer f value (some r.2.2.2)],
     r.2.2.1, some r.2.2.2)

/-- C6: the emitted Atomic statement has result None exactly when the
atomic function is Min or Max, the value type is a 64-bit scalar, and
the call is a statement; otherwise an AtomicResult expression
(comparison false, typed by the registered value type) is appended
outside the emitter window and used as the statement result and as the
call value. -/
theorem atomic_helper_result_none_iff (s : FunctionCtx) (block : List Statement)
    (start span : Nat) (f : AtomicFunction) (pointer value : Nat)
    (value_inner : TypeInner) (registeredTy : Nat) (is_statement : Bool)
    (_hstart : start ≤ s.expressions.length) :
    ((atomic_helper s block start span f pointer value value_inner registeredTy
        is_statement).2.2.2 = none ↔
      ((f = AtomicFunction.Min ∨ f = AtomicFunction.Max) ∧
       (∃ sc, value_inner = TypeInner.scalar sc ∧ sc.width = 8) ∧
       is_statement = true)) ∧
    ((atomic_helper s block start span f pointer value value_inner registeredTy
        is_statement).2.2.2 = none →
      (atomic_helper s block start span f pointer value value_inner registeredTy
        is_statement).1 = s ∧
      (atomic_helper s block start span f pointer value value_inner registeredTy
        is_statement).2.1 = block ++ emitterFinish start s.expressions ++
          [Statement.atomic pointer f value none]) ∧
    (∀ h, (atomic_helper s block start span f pointer value value_inner registeredTy
        is_statement).2.2.2 = some h →
      h = s.expressions.length ∧
      (atomic_helper s block start span f pointer value value_inner registeredTy
        is_statement).1.expressions = s.expressions ++
          [(Expression.atomicResult registeredTy false, span)] ∧
      (atomic_helper s block start span f pointer value value_inner registeredTy
        is_statement).2.2.1 = s.expressions.length + 1 ∧
      (atomic_helper s block start span f pointer value value_inner registeredTy
        is_statement).2.1 = block ++ emitterFinish start s.expressions ++
          [Statement.atomic pointer f value (some h)]) := by
  cases hc : (isMinMax f && is64BitScalar value_inner) && is_statement with
  | true =>
      simp only [Bool.and_eq_true] at hc
      obtain ⟨⟨hmm, h64⟩, hst⟩ := hc
      have hres : atomic_helper s block start span f pointer value value_inner
          registeredTy is_statement =
          (s, block ++ emitterFinish start s.expressions ++
            [Statement.atomic pointer f value none], s.expressions.length, none) := by
        unfold atomic_helper
        simp [hmm, h64, hst]
      rw [hres]
      refine ⟨?_, ?_, ?_⟩
      · simp only [true_iff]
        exact ⟨(isMinMax_iff f).mp hmm, (is64BitScalar_iff value_inner).mp h64, hst⟩
      · intro _
        exact ⟨rfl, rfl⟩
      · intro h hcontra
        exact Option.noConfusion hcontra
  | false =>
      have hres : atomic_helper s block start span f pointer value value_inner
          registeredTy is_statement =
          ((⟨s.expressions ++ [(Expression.atomicResult registeredTy false, span)],
            s.kinds ++ [ExpressionKind.Runtime], s.local_variables, s.local_table,
            s.named_expressions⟩ : FunctionCtx),
           block ++ emitterFinish start s.expressions ++
            [Statement.atomic pointer f value (some s.expressions.length)],
           (s.expressions ++ [(Expression.atomicResult registeredTy false, span)]).length,
           some s.expressions.length) := by
        unfold atomic_helper interrupt_emitter appendExpression
        rw [if_neg (by rw [hc]; exact Bool.false_ne_true)]
      rw [hres]
      refine ⟨?_, ?_, ?_⟩
      · constructor
        · intro hcontra
          exact Option.noConfusion hcontra
        · intro hrhs
          obtain ⟨hmm, h64, hst⟩ := hrhs
          rw [(isMinMax_iff f).mpr hmm, (is64BitScalar_iff value_inner).mpr h64,
            hst] at hc
          simp at hc
      · intro hcontra
        exact Option.noConfusion hcontra
      · intro h hh
        have hh2 : h = s.expressions.length := (Option.some.injEq ..).mp hh.symm
        subst hh2
        refine ⟨rfl, rfl, by simp, rfl⟩

theorem atomic_helper_result_none_iff_witness :
    (1 ≤ (FunctionCtx.mk [(Expression.otherExpr 0, 0)] [ExpressionKind.Runtime]
        [] [] []).expressions.length) ∧
    ((atomic_helper (FunctionCtx.mk [(Expression.otherExpr 0, 0)]
        [ExpressionKind.Runtime] [] [] []) [] 1 4 AtomicFunction.Min 0 0
        (TypeInner.scalar ⟨ScalarKind.Sint, 8⟩) 2 true).2.2.2 = none ↔
      ((AtomicFunction.Min = AtomicFunction.Min ∨
        AtomicFunction.Min = AtomicFunction.Max) ∧
       (∃ sc, TypeInner.scalar (⟨ScalarKind.Sint, 8⟩ : Scalar) =
          TypeInner.scalar sc ∧ sc.width = 8) ∧
       true = true)) :=
  ⟨by decide,
   (atomic_helper_result_none_iff (FunctionCtx.mk [(Expression.otherExpr 0, 0)]
      [ExpressionKind.Runtime] [] [] []) [] 1 4 AtomicFunction.Min 0 0
      (TypeInner.scalar ⟨ScalarKind.Sint, 8⟩) 2 true (by decide)).1⟩

/-! ## binary_op_splat (source lines 726-760, used by binary at 2246-2251) -/

/-- Span of an expression handle in the arena (get_expression_span). -/
def get_expression_span (exprs : List (Expression × Nat)) (h : Nat) : Nat :=
  match exprs[h]? with
  | some e => e.2
  | none => 0

/-- Insert splats for the non-multiply arithmetic operators: if one
operand is a vector and the other a scalar, the scalar operand is
replaced by an appended Splat of the vector size carrying the scalar
operand original span.  `resolve` is the typifier view of the operand
handles (resolve_inner_binary).  Returns (arena, left, right). -/
def binary_op_splat (resolve : Nat → TypeInner)
    (exprs : List (Expression × Nat)) (op : BinaryOperator)
    (left right : Nat) : List (Expression × Nat) × Nat × Nat :=
  match op with
  | BinaryOperator.Add | BinaryOperator.Subtract | BinaryOperator.Divide
  | BinaryOperator.Modulo =>
    match resolve left, resolve right with
    | TypeInner.vector size _, TypeInner.scalar _ =>
        (exprs ++ [(Expression.splat size right, get_expression_span exprs right)],
         left, exprs.length)
    | TypeInner.scalar _, TypeInner.vector size _ =>
        (exprs ++ [(Expression.splat size left, get_expression_span exprs left)],
         exprs.length, right)
    | _, _ => (exprs, left, right)
  | _ => (exprs, left, right)

/-- C8: for add, subtract, divide and modulo, a vector/scalar operand
pair of the same leaf kind gets a Splat of the vector size appended to
lift the scalar operand, carrying the scalar operand original span;
multiply never receives an inserted splat. -/
theorem binary_op_splat_spec (resolve : Nat → TypeInner)
    (exprs : List (Expression × Nat)) (op : BinaryOperator)
    (left right : Nat) (size : VectorSize) (vs ss : Scalar)
    (hop : op = BinaryOperator.Add ∨ op = BinaryOperator.Subtract ∨
      op = BinaryOperator.Divide ∨ op = BinaryOperator.Modulo) :
    (resolve left = TypeInner.vector size vs → resolve right = TypeInner.scalar ss →
      ss.kind = vs.kind →
      binary_op_splat resolve exprs op left right =
        (exprs ++ [(Expression.splat size right, get_expression_span exprs right)],
         left, exprs.length)) ∧
    (resolve left = TypeInner.scalar ss → resolve right = TypeInner.vector size vs →
      ss.kind = vs.kind →
      binary_op_splat resolve exprs op left right =
        (exprs ++ [(Expression.splat size left, get_expression_span exprs left)],
         exprs.length, right)) ∧
    binary_op_splat resolve exprs BinaryOperator.Multiply left right =
      (exprs, left, right) := by
  refine ⟨?_, ?_, rfl⟩
  · intro hl hr _
    rcases hop with h | h | h | h <;> subst h <;>
      simp only [binary_op_splat, hl, hr]
  · intro hl hr _
    rcases hop with h | h | h | h <;> subst h <;>
      simp only [binary_op_splat, hl, hr]

theorem binary_op_splat_spec_witness :
    (BinaryOperator.Add = BinaryOperator.Add ∨
     BinaryOperator.Add = BinaryOperator.Subtract ∨
     BinaryOperator.Add = BinaryOperator.Divide ∨
     BinaryOperator.Add = BinaryOperator.Modulo) ∧
    ((fun n => if n == 0 then TypeInner.vector VectorSize.Tri Scalar.I32
        else TypeInner.scalar Scalar.I32) 0 =
          TypeInner.vector VectorSize.Tri Scalar.I32 →
     (fun n => if n == 0 then TypeInner.vector VectorSize.Tri Scalar.I32
        else TypeInner.scalar Scalar.I32) 1 = TypeInner.scalar Scalar.I32 →
     Scalar.I32.kind = Scalar.I32.kind →
     binary_op_splat
       (fun n => if n == 0 then TypeInner.vector VectorSize.Tri Scalar.I32
         else TypeInner.scalar Scalar.I32)
       [(Expression.otherExpr 0, 3), (Expression.otherExpr 1, 9)]
       BinaryOperator.Add 0 1 =
       ([(Expression.otherExpr 0, 3), (Expression.otherExpr 1, 9),
         (Expression.splat VectorSize.Tri 1, 9)], 0, 2)) :=
  ⟨Or.inl rfl,
   (binary_op_splat_spec
     (fun n => if n == 0 then TypeInner.vector VectorSize.Tri Scalar.I32
       else TypeInner.scalar Scalar.I32)
     [(Expression.otherExpr 0, 3), (Expression.otherExpr 1, 9)]
     BinaryOperator.Add 0 1 VectorSize.Tri Scalar.I32 Scalar.I32
     (Or.inl rfl)).1⟩

/-! ## Relational built-ins all and any (source lines 2416-2439) -/

/-- Lowering of a call to a relational built-in: all(bool) and any(bool)
pass the argument through unchanged; otherwise a Relational expression
wrapping the argument is appended (the final append_expression of call).
Returns (arena, result handle). -/
def lowerRelational (resolve : Nat → TypeInner)
    (exprs : List (Expression × Nat)) (f : RelationalFunction)
    (argument : Nat) (span : Nat) : List (Expression × Nat) × Nat :=
  let argument_unmodified :=
    (f == RelationalFunction.All || f == RelationalFunction.Any) &&
    (match resolve argument with
     | TypeInner.scalar sc => sc.kind == ScalarKind.Bool
     | _ => false)
  if argument_unmodified then (exprs, argument)
  else (exprs ++ [(Expression.relational f argument, span)], exprs.length)

/-- C9: a call to all or any whose argument resolves to a scalar bool is
an identity: the argument handle is returned and no Relational
expression is appended; any other argument type gets a Relational
expression wrapping the argument appended. -/
theorem relational_all_any_identity (resolve : Nat → TypeInner)
    (exprs : List (Expression × Nat)) (f : RelationalFunction)
    (argument : Nat) (span : Nat)
    (hf : f = RelationalFunction.All ∨ f = RelationalFunction.Any) :
    ((∃ sc, resolve argument = TypeInner.scalar sc ∧ sc.kind = ScalarKind.Bool) →
      lowerRelational resolve exprs f argument span = (exprs, argument)) ∧
    ((¬ ∃ sc, resolve argument = TypeInner.scalar sc ∧ sc.kind = ScalarKind.Bool) →
      lowerRelational resolve exprs f argument span =
        (exprs ++ [(Expression.relational f argument, span)], exprs.length)) := by
  have hfb : (f == RelationalFunction.All || f == RelationalFunction.Any) = true := by
    rcases hf with h | h <;> subst h <;> decide
  constructor
  · intro ⟨sc, hsc, hkind⟩
    unfold lowerRelational
    rw [hfb, hsc]
    simp [hkind]
  · intro hno
    unfold lowerRelational
    rw [hfb]
    have hm : (match resolve argument with
        | TypeInner.scalar sc => sc.kind == ScalarKind.Bool
        | _ => false) = false := by
      cases ht : resolve argument with
      | scalar sc =>
          have hne : sc.kind ≠ ScalarKind.Bool := fun hk => hno ⟨sc, ht, hk⟩
          simpa using hne
      | vector a b => rfl
      | atomic a => rfl
      | pointer a b => rfl
      | other => rfl
    rw [hm]
    simp

theorem relational_all_any_identity_witness :
    (RelationalFunction.All = RelationalFunction.All ∨
     RelationalFunction.All = RelationalFunction.Any) ∧
    ((∃ sc, (fun _ => TypeInner.scalar Scalar.BOOL) 0 =
        TypeInner.scalar sc ∧ sc.kind = ScalarKind.Bool) →
      lowerRelational (fun _ => TypeInner.scalar Scalar.BOOL)
        [(Expression.otherExpr 0, 0)] RelationalFunction.All 0 5 =
        ([(Expression.otherExpr 0, 0)], 0)) :=
  ⟨Or.inl rfl,
   (relational_all_any_identity (fun _ => TypeInner.scalar Scalar.BOOL)
     [(Expression.otherExpr 0, 0)] RelationalFunction.All 0 5 (Or.inl rfl)).1⟩

/-! ## Array sizes (array_size, source lines 3346-3393, and
array_size_override, lines 3395-3423)

The lowering of the size expression under a Constant context, and the
constant evaluation to u32, are outcomes of the expression lowerer and
the constant evaluator; they are inputs here. -/

inductive AstArraySize where
  | Constant
  | Dynamic
deriving DecidableEq, Repr

inductive ArraySize where
  | Constant (n : Nat)
  | Pending (h : Nat)
  | Dynamic
deriving DecidableEq, Repr

inductive U32EvalError where
  | NonConst
  | Negative
deriving DecidableEq, Repr

/-- An IR pipeline override (naga crate::Override). -/
structure OverrideIR where
  name : Option String
  id : Option Nat
  ty : Nat
  init : Option Nat
deriving DecidableEq, Repr

/-- The module fragment touched by array_size_override: the override
arena (entries with spans) and the module global-expression arena. -/
structure ModuleState where
  overrides : List (OverrideIR × Nat)
  global_expressions : List (Expression × Nat)
deriving DecidableEq, Repr

/-- The expression stored in the module global-expression arena at a
handle (total, with a placeholder outside the arena). -/
def ModuleState.globalExprAt (m : ModuleState) (h : Nat) : Expression :=
  match m.global_expressions[h]? with
  | some e => e.1
  | none => Expression.otherExpr 0

/-- array_size_override (source lines 3395-3423).  The size expression
has been re-lowered under an Override context to handle `expr`;
`resolvedInner` is its resolved inner type and `registeredTy` the
registered type handle. -/
def array_size_override (m : ModuleState) (expr : Nat)
    (resolvedInner : TypeInner) (registeredTy : Nat) (span : Nat) :
    Except Error (ModuleState × Nat) :=
  match resolvedInner.scalar_kind with
  | some ScalarKind.Sint =>
      match m.globalExprAt expr with
      | Expression.override handle => Except.ok (m, handle)
      | _ => Except.ok
          ({ m with overrides := m.overrides ++
              [(⟨none, none, registeredTy, some expr⟩, span)] },
           m.overrides.length)
  | some ScalarKind.Uint =>
      match m.globalExprAt expr with
      | Expression.override handle => Except.ok (m, handle)
      | _ => Except.ok
          ({ m with overrides := m.overrides ++
              [(⟨none, none, registeredTy, some expr⟩, span)] },
           m.overrides.length)
  | _ => Except.error Error.ExpectedConstExprConcreteIntegerScalar

/-- array_size (source lines 3346-3393).  `const_expr` is the outcome of
lowering the size expression under a Constant context;
`const_eval_expr_to_u32` is the constant evaluator; `override_result` is
the outcome of array_size_override on the re-lowered expression. -/
def array_size (size : AstArraySize) (const_expr : Except Error Nat)
    (const_eval_expr_to_u32 : Nat → Except U32EvalError Nat)
    (override_result : Except Error Nat) : Except Error ArraySize :=
  match size with
  | AstArraySize.Constant =>
      match const_expr with
      | Except.ok value =>
          match const_eval_expr_to_u32 value with
          | Except.ok len =>
              match len with
              | 0 => Except.error Error.ExpectedPositiveArrayLength
              | Nat.succ n => Except.ok (ArraySize.Constant (Nat.succ n))
          | Except.error U32EvalError.NonConst =>
              Except.error Error.ExpectedConstExprConcreteIntegerScalar
          | Except.error U32EvalError.Negative =>
              Except.error Error.ExpectedPositiveArrayLength
      | Except.error e =>
          match e with
          | Error.ConstantEvaluatorError ConstantEvaluatorError.OverrideExpr =>
              match override_result with
              | Except.ok handle => Except.ok (ArraySize.Pending handle)
              | Except.error e2 => Except.error e2
          | e2 => Except.error e2
  | AstArraySize.Dynamic => Except.ok ArraySize.Dynamic

/-- C5: when constant lowering of an array-size expression fails with
the distinguished override-expression evaluator variant, the size is
recovered as a Pending override (the result of the Override-context
retry); every other constant-evaluator variant and every
non-evaluator error propagates unchanged. -/
theorem array_size_override_recovery
    (const_eval_expr_to_u32 : Nat → Except U32EvalError Nat)
    (override_result : Except Error Nat) :
    ((∀ handle, override_result = Except.ok handle →
      array_size AstArraySize.Constant
        (Except.error (Error.ConstantEvaluatorError
          ConstantEvaluatorError.OverrideExpr))
        const_eval_expr_to_u32 override_result =
        Except.ok (ArraySize.Pending handle)) ∧
     (∀ e2, override_result = Except.error e2 →
      array_size AstArraySize.Constant
        (Except.error (Error.ConstantEvaluatorError
          ConstantEvaluatorError.OverrideExpr))
        const_eval_expr_to_u32 override_result = Except.error e2)) ∧
    (∀ e, e ≠ Error.ConstantEvaluatorError ConstantEvaluatorError.OverrideExpr →
      array_size AstArraySize.Constant (Except.error e)
        const_eval_expr_to_u32 override_result = Except.error e) := by
  refine ⟨⟨?_, ?_⟩, ?_⟩
  · intro handle h
    subst h
    rfl
  · intro e2 h
    subst h
    rfl
  · intro e hne
    cases e with
    | ConstantEvaluatorError ce =>
        cases ce with
        | OverrideExpr => exact absurd rfl hne
        | OtherVariant code => rfl
    | ExpectedConstExprConcreteIntegerScalar => rfl
    | ExpectedPositiveArrayLength => rfl
    | ExpectedNonNegative => rfl
    | InvalidSwitchSelector => rfl
    | InvalidSwitchCase => rfl
    | SwitchCaseTypeMismatch i => rfl
    | InitializationTypeMismatch => rfl
    | SizeAttributeTooLow m => rfl
    | AlignAttributeTooLow => rfl
    | NonPowerOfTwoAlignAttribute => rfl
    | OtherError c => rfl

theorem array_size_override_recovery_witness :
    ((Except.ok 4 : Except Error Nat) = Except.ok 4) ∧
    array_size AstArraySize.Constant
      (Except.error (Error.ConstantEvaluatorError
        ConstantEvaluatorError.OverrideExpr))
      (fun _ => Except.error U32EvalError.NonConst) (Except.ok 4) =
      Except.ok (ArraySize.Pending 4) :=
  ⟨rfl,
   ((array_size_override_recovery
      (fun _ => Except.error U32EvalError.NonConst) (Except.ok 4)).1.1 4 rfl)⟩

/-- C10: the recovered override-dependent array size requires a signed
or unsigned integer scalar kind; a direct Override expression reuses the
declared override handle; otherwise a fresh anonymous override (name
None, id None, init the lowered expression, the registered type) is
appended and its handle is the Pending size. -/
theorem array_size_override_spec (m : ModuleState) (expr : Nat)
    (resolvedInner : TypeInner) (registeredTy : Nat) (span : Nat) :
    ((resolvedInner.scalar_kind ≠ some ScalarKind.Sint ∧
      resolvedInner.scalar_kind ≠ some ScalarKind.Uint) →
      array_size_override m expr resolvedInner registeredTy span =
        Except.error Error.ExpectedConstExprConcreteIntegerScalar) ∧
    ((resolvedInner.scalar_kind = some ScalarKind.Sint ∨
      resolvedInner.scalar_kind = some ScalarKind.Uint) →
      (∀ handle, m.globalExprAt expr = Expression.override handle →
        array_size_override m expr resolvedInner registeredTy span =
          Except.ok (m, handle)) ∧
      ((∀ handle, m.globalExprAt expr ≠ Expression.override handle) →
        array_size_override m expr resolvedInner registeredTy span =
          Except.ok
            ({ m with overrides := m.overrides ++
                [(⟨none, none, registeredTy, some expr⟩, span)] },
             m.overrides.length))) := by
  constructor
  · intro ⟨h1, h2⟩
    unfold array_size_override
    cases hk : resolvedInner.scalar_kind with
    | none => rfl
    | some k =>
        cases k with
        | Sint => exact absurd hk h1
        | Uint => exact absurd hk h2
        | Float => rfl
        | Bool => rfl
        | AbstractInt => rfl
        | AbstractFloat => rfl
  · intro hk
    constructor
    · intro handle hstored
      rcases hk with hk | hk <;>
        simp only [array_size_override, hk, hstored]
    · intro hnotov
      rcases hk with hk | hk
      · simp only [array_size_override, hk]
      · simp only [array_size_override, hk]

theorem array_size_override_spec_witness :
    ((TypeInner.scalar Scalar.U32).scalar_kind = some ScalarKind.Sint ∨
     (TypeInner.scalar Scalar.U32).scalar_kind = some ScalarKind.Uint) ∧
    ((ModuleState.mk [] [(Expression.override 7, 0)]).globalExprAt 0 =
        Expression.override 7) ∧
    array_size_override (ModuleState.mk [] [(Expression.override 7, 0)]) 0
      (TypeInner.scalar Scalar.U32) 9 3 =
      Except.ok (ModuleState.mk [] [(Expression.override 7, 0)], 7) :=
  ⟨Or.inr rfl, rfl,
   ((array_size_override_spec (ModuleState.mk [] [(Expression.override 7, 0)]) 0
      (TypeInner.scalar Scalar.U32) 9 3).2 (Or.inr rfl)).1 7 rfl⟩

/-! ## Entry-point workgroup size (function, source lines 1386-1425)

`const_u32` is the constant evaluation of one slot expression;
`wg_override` is the Override-context retry (workgroup_size_override,
lines 1446-1459, which also checks for an integer scalar). -/

/-- Lowering of one workgroup-size slot: an unspecified slot keeps the
default 1; a constant u32 value replaces it; the distinguished
override-expression evaluator variant leaves the default and records the
override; all other errors propagate. -/
def lowerWgSlot (const_u32 : Nat → Except Error Nat)
    (wg_override : Nat → Except Error Nat) :
    Option Nat → Except Error (Nat × Option Nat)
  | none => Except.ok (1, none)
  | some e =>
      match const_u32 e with
      | Except.ok v => Except.ok (v, none)
      | Except.error err =>
          match err with
          | Error.ConstantEvaluatorError ConstantEvaluatorError.OverrideExpr =>
              match wg_override e with
              | Except.ok handle => Except.ok (1, some handle)
              | Except.error e2 => Except.error e2
          | e2 => Except.error e2

def lowerWgSlots (const_u32 wg_override : Nat → Except Error Nat) :
    List (Option Nat) → Except Error (List (Nat × Option Nat))
  | [] => Except.ok []
  | slot :: rest =>
      match lowerWgSlot const_u32 wg_override slot with
      | Except.error e => Except.error e
      | Except.ok r =>
          match lowerWgSlots const_u32 wg_override rest with
          | Except.error e => Except.error e
          | Except.ok rs => Except.ok (r :: rs)

/-- Lowering of the workgroup-size attribute of an entry point: with no
attribute at all the stored size is [0, 0, 0] with no overrides; with an
attribute each slot is lowered, and the override array is kept only when
some slot produced an override. -/
def lowerWorkgroupSize (const_u32 wg_override : Nat → Except Error Nat) :
    Option (List (Option Nat)) →
    Except Error (List Nat × Option (List (Option Nat)))
  | none => Except.ok ([0, 0, 0], none)
  | some slots =>
      match lowerWgSlots const_u32 wg_override slots with
      | Except.error e => Except.error e
      | Except.ok rs =>
          Except.ok (rs.map Prod.fst,
            if (rs.map Prod.snd).all Option.isNone then none
            else some (rs.map Prod.snd))

theorem lowerWgSlots_forall2 (const_u32 wg_override : Nat → Except Error Nat)
    (slots : List (Option Nat)) :
    ∀ rs, lowerWgSlots const_u32 wg_override slots = Except.ok rs →
      List.Forall₂ (fun slot r =>
        lowerWgSlot const_u32 wg_override slot = Except.ok r) slots rs := by
  induction slots with
  | nil =>
      intro rs h
      simp only [lowerWgSlots, Except.ok.injEq] at h
      subst h
      exact List.Forall₂.nil
  | cons slot rest ih =>
      intro rs h
      cases h1 : lowerWgSlot const_u32 wg_override slot with
      | error e => simp only [lowerWgSlots, h1] at h; exact Except.noConfusion h
      | ok r =>
      cases h2 : lowerWgSlots const_u32 wg_override rest with
      | error e =>
          simp only [lowerWgSlots, h1, h2] at h
          exact Except.noConfusion h
      | ok rs2 =>
      simp only [lowerWgSlots, h1, h2, Except.ok.injEq] at h
      subst h
      exact List.Forall₂.cons h1 (ih rs2 h2)

/-- C7: with no workgroup-size attribute the stored size is [0, 0, 0]
with no overrides; with an attribute, each of the three dimensions is 1
for an unspecified slot, the constant u32 value of the slot expression
when evaluation succeeds, or left at the default 1 with the slot
override stored separately when the evaluator reports the distinguished
override-expression variant; the overrides array is present only when
some slot produced an override. -/
theorem workgroup_size_lowering (const_u32 wg_override : Nat → Except Error Nat) :
    (lowerWorkgroupSize const_u32 wg_override none = Except.ok ([0, 0, 0], none)) ∧
    (lowerWgSlot const_u32 wg_override none = Except.ok (1, none)) ∧
    (∀ e v, const_u32 e = Except.ok v →
      lowerWgSlot const_u32 wg_override (some e) = Except.ok (v, none)) ∧
    (∀ e handle, const_u32 e = Except.error (Error.ConstantEvaluatorError
        ConstantEvaluatorError.OverrideExpr) →
      wg_override e = Except.ok handle →
      lowerWgSlot const_u32 wg_override (some e) = Except.ok (1, some handle)) ∧
    (∀ slots sizes ovr,
      lowerWorkgroupSize const_u32 wg_override (some slots) =
        Except.ok (sizes, ovr) →
      ∃ rs, lowerWgSlots const_u32 wg_override slots = Except.ok rs ∧
        sizes = rs.map Prod.fst ∧
        List.Forall₂ (fun slot r =>
          lowerWgSlot const_u32 wg_override slot = Except.ok r) slots rs ∧
        ((ovr = none ∧ ∀ r ∈ rs, r.2 = none) ∨
         (ovr = some (rs.map Prod.snd) ∧ ∃ r ∈ rs, r.2 ≠ none))) := by
  refine ⟨rfl, rfl, ?_, ?_, ?_⟩
  · intro e v h
    simp only [lowerWgSlot, h]
  · intro e handle h1 h2
    simp only [lowerWgSlot, h1, h2]
  · intro slots sizes ovr h
    cases hs : lowerWgSlots const_u32 wg_override slots with
    | error e =>
        simp only [lowerWorkgroupSize, hs] at h
        exact Except.noConfusion h
    | ok rs =>
        simp only [lowerWorkgroupSize, hs, Except.ok.injEq, Prod.mk.injEq] at h
        obtain ⟨h1, h2⟩ := h
        subst h1
        refine ⟨rs, rfl, rfl, lowerWgSlots_forall2 const_u32 wg_override slots rs hs, ?_⟩
        cases hall : (rs.map Prod.snd).all Option.isNone with
        | true =>
            rw [hall] at h2
            simp only [if_true] at h2
            refine Or.inl ⟨h2.symm, ?_⟩
            intro r hr
            have hn := (List.all_eq_true.mp hall) r.2 (List.mem_map_of_mem Prod.snd hr)
            cases hr2 : r.2 with
            | none => rfl
            | some x => rw [hr2] at hn; exact Bool.noConfusion hn
        | false =>
            rw [hall] at h2
            simp only [Bool.false_eq_true, if_false] at h2
            refine Or.inr ⟨h2.symm, ?_⟩
            have hex : ¬ ∀ x ∈ rs.map Prod.snd, Option.isNone x = true := by
              intro hcontra
              rw [List.all_eq_true.mpr hcontra] at hall
              exact Bool.noConfusion hall
            push_neg at hex
            obtain ⟨x, hx, hxn⟩ := hex
            obtain ⟨r, hr, hrx⟩ := List.mem_map.mp hx
            refine ⟨r, hr, ?_⟩
            intro hcontra
            rw [← hrx] at hxn
            rw [hcontra] at hxn
            exact hxn rfl

theorem workgroup_size_lowering_witness :
    ((fun e => if e == 0 then Except.ok 64 else
        Except.error (Error.ConstantEvaluatorError
          ConstantEvaluatorError.OverrideExpr)) 0 =
      (Except.ok 64 : Except Error Nat)) ∧
    lowerWgSlot
      (fun e => if e == 0 then Except.ok 64 else
        Except.error (Error.ConstantEvaluatorError
          ConstantEvaluatorError.OverrideExpr))
      (fun _ => Except.ok 5) (some 0) = Except.ok (64, none) :=
  ⟨rfl,
   (workgroup_size_lowering
      (fun e => if e == 0 then Except.ok 64 else
        Except.error (Error.ConstantEvaluatorError
          ConstantEvaluatorError.OverrideExpr))
      (fun _ => Except.ok 5)).2.2.1 0 64 rfl⟩

/-! ## Switch lowering (source lines 1650-1742)

AST expression handles are identified with their lowered expression
handles; `resolveTy` is the typifier view of a lowered operand
(resolve_inner), and `evalLit` is the constant evaluator applied to an
operand after conversion to a given leaf scalar
(eval_expr_to_literal_from on the converted expression).  Case bodies
are lowered recursively by `block` and are not modelled. -/

inductive AstSwitchValue where
  | Expr (e : Nat)
  | Default
deriving DecidableEq, Repr

structure AstSwitchCase where
  value : AstSwitchValue
  fall_through : Bool
deriving DecidableEq, Repr

/-- The selector or case operand type is one of the integer scalars
i32, u32 or abstract-int (the admissible pattern of the source match). -/
def isIntScalarTy (t : TypeInner) : Bool :=
  match t with
  | TypeInner.scalar sc =>
      sc == Scalar.I32 || sc == Scalar.U32 || sc == Scalar.ABSTRACT_INT
  | _ => false

/-- The operand check loop: each of selector (index 0) and case values
(indices from 1) must resolve to an integer scalar, with the error
depending on whether the offender is the selector. -/
def checkSwitchOperands (resolveTy : Nat → TypeInner) :
    List Nat → Nat → Except Error (List Scalar)
  | [], _ => Except.ok []
  | e :: rest, i =>
      match resolveTy e with
      | TypeInner.scalar sc =>
          if sc == Scalar.I32 || sc == Scalar.U32 || sc == Scalar.ABSTRACT_INT then
            match checkSwitchOperands resolveTy rest (i + 1) with
            | Except.error err => Except.error err
            | Except.ok scs => Except.ok (sc :: scs)
          else if i == 0 then Except.error Error.InvalidSwitchSelector
          else Except.error Error.InvalidSwitchCase
      | _ =>
          if i == 0 then Except.error Error.InvalidSwitchSelector
          else Except.error Error.InvalidSwitchCase

/-- Modelled from the spec: the automatic conversion of one integer
scalar into another exists exactly when they are equal or one of them is
abstract-int (abstract-int converts to any concrete integer; concrete
scalars may not change silently); the join returns the narrowest common
target. -/
def scalarJoin (a b : Scalar) : Option Scalar :=
  if a == b then some a
  else if a == Scalar.ABSTRACT_INT then some b
  else if b == Scalar.ABSTRACT_INT then some a
  else none

/-- Modelled from the spec: conversion consensus over the operand
scalars, reporting the index of the first incompatible operand. -/
def automatic_conversion_consensus : Scalar → List Scalar → Nat → Except Nat Scalar
  | best, [], _ => Except.ok best
  | best, sc :: rest, i =>
      match scalarJoin best sc with
      | some b => automatic_conversion_consensus b rest (i + 1)
      | none => Except.error i

/-- Evaluation of the case values after conversion to the consensus
scalar: each case expression must evaluate to an I32 or U32 literal. -/
def lowerSwitchCaseValues (evalLit : Nat → Scalar → Option Literal)
    (consensus : Scalar) : List AstSwitchCase → Except Error (List SwitchCaseIR)
  | [] => Except.ok []
  | c :: rest =>
      match c.value with
      | AstSwitchValue.Default =>
          match lowerSwitchCaseValues evalLit consensus rest with
          | Except.error e => Except.error e
          | Except.ok cs =>
              Except.ok (⟨SwitchValue.Default, c.fall_through⟩ :: cs)
      | AstSwitchValue.Expr e =>
          match evalLit e consensus with
          | some (Literal.i32 v) =>
              match lowerSwitchCaseValues evalLit consensus rest with
              | Except.error err => Except.error err
              | Except.ok cs =>
                  Except.ok (⟨SwitchValue.I32 v, c.fall_through⟩ :: cs)
          | some (Literal.u32 v) =>
              match lowerSwitchCaseValues evalLit consensus rest with
              | Except.error err => Except.error err
              | Except.ok cs =>
                  Except.ok (⟨SwitchValue.U32 v, c.fall_through⟩ :: cs)
          | _ => Except.error Error.InvalidSwitchCase

/-- The non-default case value expressions, in source order. -/
def switchCaseExprs (cases : List AstSwitchCase) : List Nat :=
  cases.filterMap (fun c =>
    match c.value with
    | AstSwitchValue.Expr e => some e
    | AstSwitchValue.Default => none)

/-- Switch statement lowering: check the selector and all case value
types, compute the conversion consensus (promoting an abstract-int
consensus to i32), convert every operand to it, then evaluate each case
value to a switch-value literal.  The empty-scalars arm is unreachable
since the operand list always contains the selector. -/
def lowerSwitch (resolveTy : Nat → TypeInner)
    (evalLit : Nat → Scalar → Option Literal) (selector : Nat)
    (cases : List AstSwitchCase) :
    Except Error (Nat × Scalar × List SwitchCaseIR) :=
  match checkSwitchOperands resolveTy (selector :: switchCaseExprs cases) 0 with
  | Except.error e => Except.error e
  | Except.ok scalars =>
      match scalars with
      | [] => Except.error (Error.OtherError 0)
      | sc0 :: srest =>
          match automatic_conversion_consensus sc0 srest 1 with
          | Except.error i => Except.error (Error.SwitchCaseTypeMismatch i)
          | Except.ok consensus0 =>
              let consensus :=
                if consensus0 == Scalar.ABSTRACT_INT then Scalar.I32
                else consensus0
              match lowerSwitchCaseValues evalLit consensus cases with
              | Except.error e => Except.error e
              | Except.ok cs => Except.ok (selector, consensus, cs)

theorem checkSwitchOperands_ok_types (resolveTy : Nat → TypeInner)
    (es : List Nat) :
    ∀ i scs, checkSwitchOperands resolveTy es i = Except.ok scs →
      (∀ e ∈ es, isIntScalarTy (resolveTy e) = true) ∧
      List.Forall₂ (fun e sc => resolveTy e = TypeInner.scalar sc) es scs := by
  induction es with
  | nil =>
      intro i scs h
      simp only [checkSwitchOperands, Except.ok.injEq] at h
      subst h
      refine ⟨?_, List.Forall₂.nil⟩
      intro e he
      cases he
  | cons e rest ih =>
      intro i scs h
      cases ht : resolveTy e with
      | scalar sc =>
          cases hsc : (sc == Scalar.I32 || sc == Scalar.U32 ||
              sc == Scalar.ABSTRACT_INT) with
          | false =>
              have hred : checkSwitchOperands resolveTy (e :: rest) i =
                  if i == 0 then Except.error Error.InvalidSwitchSelector
                  else Except.error Error.InvalidSwitchCase := by
                simp only [checkSwitchOperands, ht, hsc]
                rfl
              rw [hred] at h
              split at h <;> exact Except.noConfusion h
          | true =>
              cases hrest : checkSwitchOperands resolveTy rest (i + 1) with
              | error err =>
                  simp only [checkSwitchOperands, ht, hsc, hrest, if_true] at h
                  exact Except.noConfusion h
              | ok scs2 =>
                  simp only [checkSwitchOperands, ht, hsc, hrest, if_true,
                    Except.ok.injEq] at h
                  subst h
                  obtain ⟨hall, hF⟩ := ih (i + 1) scs2 hrest
                  refine ⟨?_, List.Forall₂.cons ht hF⟩
                  intro x hx
                  rcases List.mem_cons.mp hx with hx | hx
                  · subst hx
                    rw [ht]
                    simp only [isIntScalarTy]
                    exact hsc
                  · exact hall x hx
      | vector a b =>
          simp only [checkSwitchOperands, ht] at h
          split at h <;> exact Except.noConfusion h
      | atomic a =>
          simp only [checkSwitchOperands, ht] at h
          split at h <;> exact Except.noConfusion h
      | pointer a b =>
          simp only [checkSwitchOperands, ht] at h
          split at h <;> exact Except.noConfusion h
      | other =>
          simp only [checkSwitchOperands, ht] at h
          split at h <;> exact Except.noConfusion h

theorem checkSwitchOperands_selector_bad (resolveTy : Nat → TypeInner)
    (e : Nat) (rest : List Nat)
    (h : isIntScalarTy (resolveTy e) = false) :
    checkSwitchOperands resolveTy (e :: rest) 0 =
      Except.error Error.InvalidSwitchSelector := by
  cases ht : resolveTy e with
  | scalar sc =>
      rw [ht] at h
      simp only [isIntScalarTy] at h
      simp only [checkSwitchOperands, ht, h]
      rfl
  | vector a b => simp only [checkSwitchOperands, ht]; rfl
  | atomic a => simp only [checkSwitchOperands, ht]; rfl
  | pointer a b => simp only [checkSwitchOperands, ht]; rfl
  | other => simp only [checkSwitchOperands, ht]; rfl

theorem checkSwitchOperands_case_bad (resolveTy : Nat → TypeInner)
    (es : List Nat) :
    ∀ i, 1 ≤ i →
      (∃ e ∈ es, isIntScalarTy (resolveTy e) = false) →
      checkSwitchOperands resolveTy es i = Except.error Error.InvalidSwitchCase := by
  induction es with
  | nil =>
      intro i _ hex
      obtain ⟨e, he, _⟩ := hex
      cases he
  | cons e rest ih =>
      intro i hi hex
      have hine : (i == 0) = false := by
        cases i with
        | zero => exact absurd hi (by decide)
        | succ n => rfl
      cases ht : resolveTy e with
      | scalar sc =>
          cases hsc : (sc == Scalar.I32 || sc == Scalar.U32 ||
              sc == Scalar.ABSTRACT_INT) with
          | false =>
              simp only [checkSwitchOperands, ht, hsc, hine]
              rfl
          | true =>
              have hbad : ∃ x ∈ rest, isIntScalarTy (resolveTy x) = false := by
                obtain ⟨x, hx, hxbad⟩ := hex
                rcases List.mem_cons.mp hx with hx | hx
                · subst hx
                  rw [ht] at hxbad
                  simp only [isIntScalarTy] at hxbad
                  rw [hsc] at hxbad
                  exact Bool.noConfusion hxbad
                · exact ⟨x, hx, hxbad⟩
              have hrest := ih (i + 1) (Nat.le_add_left 1 i) hbad
              simp only [checkSwitchOperands, ht, hsc, hrest, if_true]
      | vector a b => simp only [checkSwitchOperands, ht, hine]; rfl
      | atomic a => simp only [checkSwitchOperands, ht, hine]; rfl
      | pointer a b => simp only [checkSwitchOperands, ht, hine]; rfl
      | other => simp only [checkSwitchOperands, ht, hine]; rfl

theorem lowerSwitchCaseValues_forall2 (evalLit : Nat → Scalar → Option Literal)
    (consensus : Scalar) (cases : List AstSwitchCase) :
    ∀ cs, lowerSwitchCaseValues evalLit consensus cases = Except.ok cs →
      List.Forall₂ (fun (c : AstSwitchCase) (cIR : SwitchCaseIR) =>
        cIR.fall_through = c.fall_through ∧
        ((c.value = AstSwitchValue.Default ∧ cIR.value = SwitchValue.Default) ∨
         (∃ e, c.value = AstSwitchValue.Expr e ∧
           ((∃ v, evalLit e consensus = some (Literal.i32 v) ∧
              cIR.value = SwitchValue.I32 v) ∨
            (∃ v, evalLit e consensus = some (Literal.u32 v) ∧
              cIR.value = SwitchValue.U32 v))))) cases cs := by
  induction cases with
  | nil =>
      intro cs h
      simp only [lowerSwitchCaseValues, Except.ok.injEq] at h
      subst h
      exact List.Forall₂.nil
  | cons c rest ih =>
      intro cs h
      cases hv : c.value with
      | Default =>
          cases hrest : lowerSwitchCaseValues evalLit consensus rest with
          | error e =>
              simp only [lowerSwitchCaseValues, hv, hrest] at h
              exact Except.noConfusion h
          | ok cs2 =>
              simp only [lowerSwitchCaseValues, hv, hrest, Except.ok.injEq] at h
              subst h
              exact List.Forall₂.cons ⟨rfl, Or.inl ⟨hv, rfl⟩⟩ (ih cs2 hrest)
      | Expr e =>
          cases hlit : evalLit e consensus with
          | none =>
              simp only [lowerSwitchCaseValues, hv, hlit] at h
              exact Except.noConfusion h
          | some lit =>
              cases lit with
              | i32 v =>
                  cases hrest : lowerSwitchCaseValues evalLit consensus rest with
                  | error err =>
                      simp only [lowerSwitchCaseValues, hv, hlit, hrest] at h
                      exact Except.noConfusion h
                  | ok cs2 =>
                      simp only [lowerSwitchCaseValues, hv, hlit, hrest,
                        Except.ok.injEq] at h
                      subst h
                      exact List.Forall₂.cons
                        ⟨rfl, Or.inr ⟨e, hv, Or.inl ⟨v, hlit, rfl⟩⟩⟩ (ih cs2 hrest)
              | u32 v =>
                  cases hrest : lowerSwitchCaseValues evalLit consensus rest with
                  | error err =>
                      simp only [lowerSwitchCaseValues, hv, hlit, hrest] at h
                      exact Except.noConfusion h
                  | ok cs2 =>
                      simp only [lowerSwitchCaseValues, hv, hlit, hrest,
                        Except.ok.injEq] at h
                      subst h
                      exact List.Forall₂.cons
                        ⟨rfl, Or.inr ⟨e, hv, Or.inr ⟨v, hlit, rfl⟩⟩⟩ (ih cs2 hrest)
              | bool b =>
                  simp only [lowerSwitchCaseValues, hv, hlit] at h
                  exact Except.noConfusion h
              | abstractInt v =>
                  simp only [lowerSwitchCaseValues, hv, hlit] at h
                  exact Except.noConfusion h
              | otherLit code =>
                  simp only [lowerSwitchCaseValues, hv, hlit] at h
                  exact Except.noConfusion h

/-- C4: the switch selector and every non-default case value must
resolve to an i32, u32 or abstract-int scalar (otherwise an
invalid-switch-selector or invalid-switch-case error); a conversion
consensus is computed over the selector together with all case values,
an abstract-int consensus is promoted to i32, and every operand is
converted to the consensus scalar before each case value is evaluated
to an I32 or U32 switch-value literal. -/
theorem switch_consensus_lowering (resolveTy : Nat → TypeInner)
    (evalLit : Nat → Scalar → Option Literal) (selector : Nat)
    (cases : List AstSwitchCase) :
    (isIntScalarTy (resolveTy selector) = false →
      lowerSwitch resolveTy evalLit selector cases =
        Except.error Error.InvalidSwitchSelector) ∧
    (isIntScalarTy (resolveTy selector) = true →
      (∃ e ∈ switchCaseExprs cases, isIntScalarTy (resolveTy e) = false) →
      lowerSwitch resolveTy evalLit selector cases =
        Except.error Error.InvalidSwitchCase) ∧
    (∀ sel cons cs,
      lowerSwitch resolveTy evalLit selector cases = Except.ok (sel, cons, cs) →
      sel = selector ∧
      (∀ e ∈ selector :: switchCaseExprs cases,
        isIntScalarTy (resolveTy e) = true) ∧
      cons ≠ Scalar.ABSTRACT_INT ∧
      (∃ sc0 srest consensus0,
        checkSwitchOperands resolveTy (selector :: switchCaseExprs cases) 0 =
          Except.ok (sc0 :: srest) ∧
        automatic_conversion_consensus sc0 srest 1 = Except.ok consensus0 ∧
        cons = (if consensus0 == Scalar.ABSTRACT_INT then Scalar.I32
          else consensus0)) ∧
      List.Forall₂ (fun (c : AstSwitchCase) (cIR : SwitchCaseIR) =>
        cIR.fall_through = c.fall_through ∧
        ((c.value = AstSwitchValue.Default ∧ cIR.value = SwitchValue.Default) ∨
         (∃ e, c.value = AstSwitchValue.Expr e ∧
           ((∃ v, evalLit e cons = some (Literal.i32 v) ∧
              cIR.value = SwitchValue.I32 v) ∨
            (∃ v, evalLit e cons = some (Literal.u32 v) ∧
              cIR.value = SwitchValue.U32 v))))) cases cs) := by
  refine ⟨?_, ?_, ?_⟩
  · intro hbad
    have hchk := checkSwitchOperands_selector_bad resolveTy selector
      (switchCaseExprs cases) hbad
    simp only [lowerSwitch, hchk]
  · intro hsel hbad
    cases ht : resolveTy selector with
    | scalar sc =>
        rw [ht] at hsel
        simp only [isIntScalarTy] at hsel
        have hrest := checkSwitchOperands_case_bad resolveTy
          (switchCaseExprs cases) 1 (Nat.le_refl 1) hbad
        have hchk : checkSwitchOperands resolveTy
            (selector :: switchCaseExprs cases) 0 =
            Except.error Error.InvalidSwitchCase := by
          simp only [checkSwitchOperands, ht, hsel, hrest, if_true]
        simp only [lowerSwitch, hchk]
    | vector a b => rw [ht] at hsel; exact Bool.noConfusion hsel
    | atomic a => rw [ht] at hsel; exact Bool.noConfusion hsel
    | pointer a b => rw [ht] at hsel; exact Bool.noConfusion hsel
    | other => rw [ht] at hsel; exact Bool.noConfusion hsel
  · intro sel cons cs h
    cases hchk : checkSwitchOperands resolveTy
        (selector :: switchCaseExprs cases) 0 with
    | error e =>
        simp only [lowerSwitch, hchk] at h
        exact Except.noConfusion h
    | ok scalars =>
    cases hscalars : scalars with
    | nil =>
        subst hscalars
        simp only [lowerSwitch, hchk] at h
        exact Except.noConfusion h
    | cons sc0 srest =>
    subst hscalars
    cases hcons : automatic_conversion_consensus sc0 srest 1 with
    | error i =>
        simp only [lowerSwitch, hchk, hcons] at h
        exact Except.noConfusion h
    | ok consensus0 =>
    cases hvals : lowerSwitchCaseValues evalLit
        (if consensus0 == Scalar.ABSTRACT_INT then Scalar.I32 else consensus0)
        cases with
    | error e =>
        simp only [lowerSwitch, hchk, hcons, hvals] at h
        exact Except.noConfusion h
    | ok cs2 =>
    simp only [lowerSwitch, hchk, hcons, hvals, Except.ok.injEq,
      Prod.mk.injEq] at h
    obtain ⟨hsel2, hcons2, hcs2⟩ := h
    obtain ⟨hall, _⟩ := checkSwitchOperands_ok_types resolveTy
      (selector :: switchCaseExprs cases) 0 (sc0 :: srest) hchk
    refine ⟨hsel2.symm, hall, ?_, ⟨sc0, srest, consensus0, rfl, hcons, hcons2.symm⟩, ?_⟩
    · rw [← hcons2]
      cases hai : consensus0 == Scalar.ABSTRACT_INT with
      | true =>
          simp only [hai, if_true]
          decide
      | false =>
          simp only [hai, Bool.false_eq_true, if_false]
          intro hcontra
          rw [hcontra] at hai
          simp at hai
    · rw [← hcs2, ← hcons2]
      exact lowerSwitchCaseValues_forall2 evalLit _ cases cs2 hvals

/-- Example from the specification: switch 1 { case 1u: {} case 2: {}
default: {} }.  Operand 0 is the selector (the abstract-int literal 1),
operand 1 is the case value 1u (u32), operand 2 is the case value 2
(abstract-int).  The consensus with 1u is u32, so every operand is
converted to u32 and the case values evaluate to U32 literals. -/
def exSwitchResolve : Nat → TypeInner := fun e =>
  if e == 1 then TypeInner.scalar Scalar.U32
  else TypeInner.scalar Scalar.ABSTRACT_INT

def exSwitchEval : Nat → Scalar → Option Literal := fun e sc =>
  if sc == Scalar.U32 then
    if e == 1 then some (Literal.u32 1)
    else if e == 2 then some (Literal.u32 2)
    else none
  else none

def exSwitchCases : List AstSwitchCase :=
  [⟨AstSwitchValue.Expr 1, false⟩, ⟨AstSwitchValue.Expr 2, false⟩,
   ⟨AstSwitchValue.Default, false⟩]

theorem switch_consensus_lowering_witness :
    lowerSwitch exSwitchResolve exSwitchEval 0 exSwitchCases =
      Except.ok (0, Scalar.U32,
        [⟨SwitchValue.U32 1, false⟩, ⟨SwitchValue.U32 2, false⟩,
         ⟨SwitchValue.Default, false⟩]) ∧
    ((0 : Nat) = 0 ∧
     (∀ e ∈ (0 : Nat) :: switchCaseExprs exSwitchCases,
       isIntScalarTy (exSwitchResolve e) = true) ∧
     Scalar.U32 ≠ Scalar.ABSTRACT_INT ∧
     (∃ sc0 srest consensus0,
       checkSwitchOperands exSwitchResolve
         ((0 : Nat) :: switchCaseExprs exSwitchCases) 0 =
         Except.ok (sc0 :: srest) ∧
       automatic_conversion_consensus sc0 srest 1 = Except.ok consensus0 ∧
       Scalar.U32 = (if consensus0 == Scalar.ABSTRACT_INT then Scalar.I32
         else consensus0)) ∧
     List.Forall₂ (fun (c : AstSwitchCase) (cIR : SwitchCaseIR) =>
       cIR.fall_through = c.fall_through ∧
       ((c.value = AstSwitchValue.Default ∧ cIR.value = SwitchValue.Default) ∨
        (∃ e, c.value = AstSwitchValue.Expr e ∧
          ((∃ v, exSwitchEval e Scalar.U32 = some (Literal.i32 v) ∧
             cIR.value = SwitchValue.I32 v) ∨
           (∃ v, exSwitchEval e Scalar.U32 = some (Literal.u32 v) ∧
             cIR.value = SwitchValue.U32 v))))) exSwitchCases
       [⟨SwitchValue.U32 1, false⟩, ⟨SwitchValue.U32 2, false⟩,
        ⟨SwitchValue.Default, false⟩]) :=
  ⟨by rfl,
   (switch_consensus_lowering exSwitchResolve exSwitchEval 0 exSwitchCases).2.2
     0 Scalar.U32
     [⟨SwitchValue.U32 1, false⟩, ⟨SwitchValue.U32 2, false⟩,
      ⟨SwitchValue.Default, false⟩] (by rfl)⟩

end Wgsl
